import Mathlib

/-!
Shallow embedding of the tetris-block-randomizer core (`src/app/page.tsx`).

JavaScript numbers used as counts are integers in this program (counts start
at integer defaults, are decremented by 1 and floored at 0), so they are
embedded as `Int`, with `Math.max` as `max`.  React state updates
(`setBlocks`, `setSelected`, ...) are modelled by returning the new values
explicitly.  `Math.random() * total |> Math.floor` yields an integer
`r ∈ [0, total)` which is passed in as a parameter.  Animation time arithmetic
(`Date.now()` differences divided by the duration, eased with a quadratic)
is exact over `ℚ`.  The result of the JavaScript `Number(x)` coercion on a
persisted JSON field is modelled as `Option Int` (`none` for `NaN`, i.e. a
non-numeric value); `x || d` on numbers is falsy exactly on `0` and `NaN`.
JavaScript exceptions are modelled with `Except`.
-/

/-- A block category: `{ id, name, src, count, initial }` (page.tsx lines 5–11).
`count` is the remaining count, `initial` the starting count. -/
structure Block where
  id : String
  name : String
  src : String
  count : Int
  initial : Int
deriving DecidableEq

/-- An entry of `DEFAULT_INITIAL` / `savedConfig`: `{ id, name, src, initial }`. -/
structure ConfigEntry where
  id : String
  name : String
  src : String
  initial : Int
deriving DecidableEq

/-- An entry of the parsed persisted record.  `initial` is the value that the
JavaScript coercion `Number(p.initial)` produces: `none` models `NaN`
(non-numeric or missing field), `some n` a finite numeric value. -/
structure ParsedEntry where
  id : String
  initial : Option Int
deriving DecidableEq

/-- An entry of the argument to `saveConfig`: `{ id, initial }` with a numeric
`initial` (page.tsx line 233). -/
structure SaveItem where
  id : String
  initial : Int
deriving DecidableEq

/-- The built-in category list `DEFAULT_INITIAL` (page.tsx lines 15–24). -/
def DEFAULT_INITIAL : List ConfigEntry :=
  [⟨"red", "Merah", "/red.svg", 6⟩,
   ⟨"blue", "Biru", "/blue.svg", 6⟩,
   ⟨"green", "Hijau", "/green.svg", 6⟩,
   ⟨"pink", "Pink", "/pink.svg", 6⟩,
   ⟨"grey", "Abu", "/grey.svg", 6⟩,
   ⟨"orange", "Oranye", "/orange.svg", 6⟩,
   ⟨"yellow", "Kuning", "/yellow.svg", 6⟩,
   ⟨"purple", "Ungu", "/purple.svg", 6⟩]

/-- The JavaScript idiom `Number(x) || d`: the left operand is used unless it
is falsy, i.e. `0` or `NaN` (modelled by `none`). -/
def jsOr (x : Option Int) (d : Int) : Int :=
  match x with
  | none => d
  | some n => if n = 0 then d else n

/-- The merge step of `loadSavedConfig` (page.tsx lines 34–37):
`defaults.map (d => { const found = parsed.find(p => p.id === d.id);
return found ? { ...d, initial: Number(found.initial) || d.initial } : d })`. -/
def mergeConfig (defaults : List ConfigEntry) (parsed : List ParsedEntry) : List ConfigEntry :=
  defaults.map fun d =>
    match parsed.find? (fun p => p.id = d.id) with
    | some found => { d with initial := jsOr found.initial d.initial }
    | none => d

/-- `loadSavedConfig` (page.tsx lines 26–41).  `stored = none` collapses the
three defensive early exits (no stored value, JSON parse error caught by the
`try`/`catch`, parsed value not an array); `stored = some parsed` is a parsed
array of entries. -/
def loadSavedConfig (stored : Option (List ParsedEntry)) : List ConfigEntry :=
  match stored with
  | none => DEFAULT_INITIAL
  | some parsed => mergeConfig DEFAULT_INITIAL parsed

/-- `totalRemaining` / the `total` recomputation inside `pickAndDecrement`:
`blocks.reduce((s, b) => s + b.count, 0)` (page.tsx lines 62 and 78). -/
def totalCount (blocks : List Block) : Int :=
  blocks.foldl (fun s b => s + b.count) 0

/-- The cumulative-sum walk of `pickAndDecrement` (page.tsx lines 82–90):
`cum` starts at the accumulator argument, each step adds `blocks[i].count` and
stops at the first index with `r < cum`; `none` models `pickedIndex === -1`. -/
def pickIndexLoop : List Block → Int → Int → Option Nat
  | [], _, _ => none
  | b :: bs, r, cum =>
    if r < cum + b.count then some 0
    else (pickIndexLoop bs r (cum + b.count)).map (fun i => i + 1)

/-- `pickedIndex` after the loop and the defensive fallback
`if (pickedIndex === -1) pickedIndex = blocks.length - 1` (page.tsx line 91). -/
def pickedIndex (blocks : List Block) (r : Int) : Nat :=
  match pickIndexLoop blocks r 0 with
  | some i => i
  | none => blocks.length - 1

/-- JavaScript `Array.prototype.map` with the element index, as used by
`prev.map((b, i) => ...)` (page.tsx lines 96–100). -/
def mapWithIndex (f : Nat → Block → Block) : Nat → List Block → List Block
  | _, [] => []
  | i, b :: bs => f i b :: mapWithIndex f (i + 1) bs

/-- `pickAndDecrement` (page.tsx lines 77–103).  Returns the picked block
(`none` models the early `return` with `undefined`) together with the new
`blocks` state produced by `setBlocks`. -/
def pickAndDecrement (blocks : List Block) (r : Int) : Option Block × List Block :=
  let total := totalCount blocks
  if total ≤ 0 then (none, blocks)
  else
    let i := pickedIndex blocks r
    (blocks.get? i,
     mapWithIndex
       (fun j b => if j = i then { b with count := max 0 (b.count - 1) } else b)
       0 blocks)

/-- `getSingleRemainingBlock` (page.tsx lines 106–109). -/
def getSingleRemainingBlock (blocks : List Block) : Option Block :=
  let availableBlocks := blocks.filter fun b => decide (b.count > 0)
  if availableBlocks.length = 1 then availableBlocks.get? 0 else none

/-- The two synchronous outcomes of `animateSelection` (page.tsx lines
112–126) plus the decision to start the cycling animation: `noAvailable` is
the `availableBlocks.length === 0` early return, `immediate` the
single-category fast path (carrying the final pick passed to `setSelected`
and the new `blocks` state), `startCycle` the `setIsAnimating(true)` path,
carrying the captured `availableBlocks` snapshot used by the ticks. -/
inductive SelectionOutcome
  | noAvailable
  | immediate (sel : Option Block) (blocks : List Block)
  | startCycle (availableBlocks : List Block)
deriving DecidableEq

/-- The synchronous part of `animateSelection` (page.tsx lines 112–126). -/
def animateSelection (blocks : List Block) (r : Int) : SelectionOutcome :=
  let availableBlocks := blocks.filter fun b => decide (b.count > 0)
  if availableBlocks.length = 0 then SelectionOutcome.noAvailable
  else if availableBlocks.length = 1 then
    SelectionOutcome.immediate (pickAndDecrement blocks r).1 (pickAndDecrement blocks r).2
  else SelectionOutcome.startCycle availableBlocks

/-- `easeOut` (page.tsx lines 129–131): `1 - Math.pow(1 - t, 2)`. -/
def easeOut (t : ℚ) : ℚ := 1 - (1 - t) ^ 2

/-- JavaScript array indexing `l[i]` with a possibly negative or
out-of-range index (`undefined` is `none`). -/
def jsIndex (l : List Block) (i : Int) : Option Block :=
  if i < 0 then none else l.get? i.toNat

/-- The observable result of one execution of the `animate` tick callback
(page.tsx lines 133–161): the value passed to `setSelected`, the `blocks`
state afterwards, the `isAnimating` flag, and whether the cycle finished
(i.e. took the `progress < 1 ? requestAnimationFrame : finalize` else
branch). -/
structure TickResult where
  selected : Option Block
  blocks : List Block
  isAnimating : Bool
  finished : Bool
deriving DecidableEq

/-- One execution of `animate` (page.tsx lines 133–161).  `elapsed` is
`Date.now() - startTime`; `frameIndex` is its value before the `frameIndex++`
of this tick; `r` is the random integer used by `pickAndDecrement` should
this tick finish the cycle. -/
def animateTick (blocks availableBlocks : List Block) (duration elapsed : ℚ)
    (frameIndex : Nat) (r : Int) : TickResult :=
  let progress := min 1 (elapsed / duration)
  let index : Int :=
    if progress < 7/10 then
      ((frameIndex + 1) % availableBlocks.length : Nat)
    else
      ⌊easeOut ((progress - 7/10) / (3/10)) * ((availableBlocks.length : ℚ) - 1)⌋
  if progress < 1 then
    { selected := jsIndex availableBlocks index, blocks := blocks,
      isAnimating := true, finished := false }
  else
    { selected :=
        match (pickAndDecrement blocks r).1 with
        | some p => some p
        | none => jsIndex availableBlocks index,
      blocks := (pickAndDecrement blocks r).2,
      isAnimating := false, finished := true }

/-- The self-rescheduling `animate` loop (page.tsx lines 151–152): the
environment samples the callback at a list of elapsed times; the loop stops
after the first finished tick (`requestAnimationFrame` is only called while
`progress < 1`).  Returns the final `blocks` state and the number of
`pickAndDecrement` calls performed. -/
def runCycle (availableBlocks : List Block) (duration : ℚ) (r : Int) :
    List Block → Nat → List ℚ → List Block × Nat
  | blocks, _, [] => (blocks, 0)
  | blocks, frameIndex, t :: ts =>
    let res := animateTick blocks availableBlocks duration t frameIndex r
    if res.finished then (res.blocks, 1)
    else runCycle availableBlocks duration r res.blocks (frameIndex + 1) ts

/-- `handleReset` (page.tsx lines 189–203): rebuild `blocks` from
`savedConfig.length ? savedConfig : DEFAULT_INITIAL`. -/
def handleReset (savedConfig : List ConfigEntry) : List Block :=
  (if savedConfig.length ≠ 0 then savedConfig else DEFAULT_INITIAL).map
    fun b => { id := b.id, name := b.name, src := b.src, count := b.initial, initial := b.initial }

/-- The `setBlocks` call of the mount effect (page.tsx lines 217–225):
initialize `blocks` from a loaded configuration, `count := initial`. -/
def initBlocks (cfg : List ConfigEntry) : List Block :=
  cfg.map fun c => { id := c.id, name := c.name, src := c.src, count := c.initial, initial := c.initial }

/-- `saveConfig` (page.tsx lines 233–240).  `storageOk = false` models
`localStorage.setItem` throwing (storage unavailable / quota exceeded); the
function body contains no `try`/`catch`, so the exception propagates to the
caller, modelled by `Except.error ()`.  On success the merged `savedConfig`
value passed to `setSavedConfig` is returned. -/
def saveConfig (storageOk : Bool) (config : List SaveItem) : Except Unit (List ConfigEntry) :=
  if storageOk then
    Except.ok (DEFAULT_INITIAL.map fun d =>
      match config.find? (fun c => c.id = d.id) with
      | some found => { d with initial := jsOr (some found.initial) d.initial }
      | none => d)
  else Except.error ()

/-- The `setBlocks` update of the `BlocksList` `onSave` callback
(page.tsx lines 433–439): the edited category gets both `count` and
`initial` set to the new value, the others are untouched. -/
def editBlocks (blocks : List Block) (blockId : String) (newInitial : Int) : List Block :=
  blocks.map fun p =>
    if p.id = blockId then { p with count := newInitial, initial := newInitial } else p

/-- Modelled from the words of claim C2, for comparison with
`loadSavedConfig`: for each built-in category id in built-in order, use the
persisted override whenever the record contains that id with a coercible
non-negative numeric value, and the built-in default otherwise. -/
def claimedLoad (stored : Option (List ParsedEntry)) : List ConfigEntry :=
  match stored with
  | none => DEFAULT_INITIAL
  | some parsed =>
    DEFAULT_INITIAL.map fun d =>
      match parsed.find? (fun p => p.id = d.id) with
      | some found =>
        match found.initial with
        | some m => if 0 ≤ m then { d with initial := m } else d
        | none => d
      | none => d

/-- Modelled from the amended claim C2: the persisted override is used
exactly when the stored value coerces to a nonzero number (the code's
`Number(found.initial) || d.initial` is falsy on 0 and NaN); a zero or NaN
coercion falls back to the built-in default, and negative values pass
through. -/
def amendedLoad (stored : Option (List ParsedEntry)) : List ConfigEntry :=
  match stored with
  | none => DEFAULT_INITIAL
  | some parsed =>
    DEFAULT_INITIAL.map fun d =>
      match parsed.find? (fun p => p.id = d.id) with
      | some found =>
        match found.initial with
        | some m => if m = 0 then d else { d with initial := m }
        | none => d
      | none => d

/-- The data-model invariant `0 ≤ remainingCount ≤ startingCount` (spec §3). -/
def CountInv (blocks : List Block) : Prop :=
  ∀ b ∈ blocks, 0 ≤ b.count ∧ b.count ≤ b.initial

instance (blocks : List Block) : Decidable (CountInv blocks) := by
  unfold CountInv; infer_instance

/-- A small concrete pool used by the witnesses: red has 2 remaining,
blue has 3. -/
def demoPool : List Block :=
  [⟨"red", "Merah", "/red.svg", 2, 6⟩, ⟨"blue", "Biru", "/blue.svg", 3, 6⟩]

/-- The `{A: 0, B: 1}` pool of the single-category fast-path example. -/
def singlePool : List Block :=
  [⟨"A", "A", "/a.svg", 0, 6⟩, ⟨"B", "B", "/b.svg", 1, 6⟩]

/-- The unique available block of `singlePool`. -/
def singleB : Block := ⟨"B", "B", "/b.svg", 1, 6⟩

example : totalCount [⟨"a", "a", "a", 2, 6⟩, ⟨"b", "b", "b", 3, 6⟩] = 5 := by decide

example : pickAndDecrement [⟨"a", "a", "a", 0, 6⟩, ⟨"b", "b", "b", 1, 6⟩] 0 =
    (some ⟨"b", "b", "b", 1, 6⟩, [⟨"a", "a", "a", 0, 6⟩, ⟨"b", "b", "b", 0, 6⟩]) := by decide

/-! ### Helper lemmas -/

theorem totalCount_nil : totalCount [] = 0 := rfl

theorem totalCount_foldl (bs : List Block) :
    ∀ a : Int, bs.foldl (fun s b => s + b.count) a
      = a + bs.foldl (fun s b => s + b.count) 0 := by
  induction bs with
  | nil => intro a; simp
  | cons b bs ih =>
    intro a
    simp only [List.foldl]
    rw [ih (a + b.count), ih (0 + b.count)]
    ring

theorem totalCount_cons (b : Block) (bs : List Block) :
    totalCount (b :: bs) = b.count + totalCount bs := by
  simp only [totalCount, List.foldl]
  rw [totalCount_foldl bs (0 + b.count)]
  ring

theorem totalCount_take_succ :
    ∀ (bs : List Block) (i : Nat) (b : Block), bs.get? i = some b →
      totalCount (bs.take (i + 1)) = totalCount (bs.take i) + b.count := by
  intro bs
  induction bs with
  | nil => intro i b h; simp at h
  | cons c cs ih =>
    intro i b h
    match i with
    | 0 =>
      simp only [List.get?_cons_zero, Option.some.injEq] at h
      subst h
      simp [totalCount_cons, totalCount_nil]
    | Nat.succ j =>
      simp only [List.get?_cons_succ] at h
      simp only [List.take_succ_cons, totalCount_cons]
      rw [ih j b h]
      ring

theorem pickIndexLoop_spec (r : Int) :
    ∀ (bs : List Block) (cum : Int) (i : Nat),
      pickIndexLoop bs r cum = some i →
      i < bs.length ∧ r < cum + totalCount (bs.take (i + 1)) ∧
        ∀ j < i, cum + totalCount (bs.take (j + 1)) ≤ r := by
  intro bs
  induction bs with
  | nil => intro cum i h; simp [pickIndexLoop] at h
  | cons b bs ih =>
    intro cum i h
    simp only [pickIndexLoop] at h
    by_cases hlt : r < cum + b.count
    · rw [if_pos hlt] at h
      injection h with h
      subst h
      refine ⟨by simp, ?_, by omega⟩
      simpa [totalCount_cons, totalCount_nil] using hlt
    · rw [if_neg hlt] at h
      cases hrec : pickIndexLoop bs r (cum + b.count) with
      | none => rw [hrec] at h; simp at h
      | some k =>
        rw [hrec] at h
        simp only [Option.map_some', Option.some.injEq] at h
        subst h
        obtain ⟨h1, h2, h3⟩ := ih (cum + b.count) k hrec
        refine ⟨by simp; omega, ?_, ?_⟩
        · simp only [List.take_succ_cons, totalCount_cons]
          omega
        · intro j hj
          match j with
          | 0 =>
            simp only [List.take_succ_cons, List.take_zero, totalCount_cons, totalCount_nil]
            omega
          | Nat.succ j' =>
            have := h3 j' (by omega)
            simp only [List.take_succ_cons, totalCount_cons]
            omega

theorem pickIndexLoop_total (r : Int) :
    ∀ (bs : List Block) (cum : Int), bs ≠ [] → r < cum + totalCount bs →
      ∃ i, pickIndexLoop bs r cum = some i := by
  intro bs
  induction bs with
  | nil => intro cum h _; exact absurd rfl h
  | cons b bs ih =>
    intro cum _ hr
    by_cases hlt : r < cum + b.count
    · exact ⟨0, by simp [pickIndexLoop, if_pos hlt]⟩
    · cases bs with
      | nil =>
        exfalso
        rw [totalCount_cons, totalCount_nil] at hr
        omega
      | cons c cs =>
        have hr2 : r < (cum + b.count) + totalCount (c :: cs) := by
          rw [totalCount_cons] at hr; omega
        obtain ⟨i, hi⟩ := ih (cum + b.count) (by simp) hr2
        refine ⟨i + 1, ?_⟩
        show (if r < cum + b.count then some 0
          else (pickIndexLoop (c :: cs) r (cum + b.count)).map (fun i => i + 1)) = some (i + 1)
        rw [if_neg hlt, hi]
        rfl

theorem mapWithIndex_length (f : Nat → Block → Block) :
    ∀ (l : List Block) (s : Nat), (mapWithIndex f s l).length = l.length := by
  intro l
  induction l with
  | nil => intro s; rfl
  | cons b bs ih => intro s; simp [mapWithIndex, ih]

theorem mapWithIndex_get? (f : Nat → Block → Block) :
    ∀ (l : List Block) (s j : Nat),
      (mapWithIndex f s l).get? j = (l.get? j).map (f (s + j)) := by
  intro l
  induction l with
  | nil => intro s j; simp [mapWithIndex]
  | cons b bs ih =>
    intro s j
    match j with
    | 0 => simp [mapWithIndex]
    | Nat.succ j' =>
      have harg : s + 1 + j' = s + (j' + 1) := by omega
      simp only [mapWithIndex, List.get?_cons_succ]
      rw [ih (s + 1) j', harg]

theorem mapWithIndex_mem (f : Nat → Block → Block) :
    ∀ (l : List Block) (s : Nat) (b' : Block), b' ∈ mapWithIndex f s l →
      ∃ k b, b ∈ l ∧ b' = f k b := by
  intro l
  induction l with
  | nil => intro s b' h; simp [mapWithIndex] at h
  | cons b bs ih =>
    intro s b' h
    simp only [mapWithIndex, List.mem_cons] at h
    rcases h with h | h
    · exact ⟨s, b, List.mem_cons_self b bs, h⟩
    · obtain ⟨k, c, hc, hk⟩ := ih (s + 1) b' h
      exact ⟨k, c, List.mem_cons_of_mem b hc, hk⟩

/-- The central fact about a successful draw: for `0 ≤ r < totalCount blocks`,
the walk returns the least index whose cumulative count sum exceeds `r`; the
block at that index has a positive count and is the returned pick. -/
theorem pickAndDecrement_pick (blocks : List Block) (r : Int)
    (h0 : 0 ≤ r) (hr : r < totalCount blocks) :
    ∃ i b, pickIndexLoop blocks r 0 = some i ∧
      pickedIndex blocks r = i ∧
      blocks.get? i = some b ∧ 0 < b.count ∧
      (pickAndDecrement blocks r).1 = some b ∧
      (pickAndDecrement blocks r).2 =
        mapWithIndex
          (fun j c => if j = i then { c with count := max 0 (c.count - 1) } else c)
          0 blocks ∧
      r < totalCount (blocks.take (i + 1)) ∧
      ∀ j < i, totalCount (blocks.take (j + 1)) ≤ r := by
  have htotal : 0 < totalCount blocks := lt_of_le_of_lt h0 hr
  have hne : blocks ≠ [] := by
    intro he
    rw [he, totalCount_nil] at htotal
    omega
  obtain ⟨i, hi⟩ := pickIndexLoop_total r blocks 0 hne (by omega)
  obtain ⟨hlen, hcum, hmin⟩ := pickIndexLoop_spec r blocks 0 i hi
  simp only [zero_add] at hcum hmin
  have hidx : pickedIndex blocks r = i := by simp [pickedIndex, hi]
  obtain ⟨b, hget⟩ : ∃ b, blocks.get? i = some b :=
    ⟨blocks.get ⟨i, hlen⟩, List.get?_eq_get hlen⟩
  have hprev : totalCount (blocks.take i) ≤ r := by
    match i with
    | 0 => simpa [totalCount_nil] using h0
    | Nat.succ i' => exact hmin i' (by omega)
  have hcount : 0 < b.count := by
    have := totalCount_take_succ blocks i b hget
    omega
  have hcond : ¬ totalCount blocks ≤ 0 := by omega
  refine ⟨i, b, hi, hidx, hget, hcount, ?_, ?_, hcum, hmin⟩
  · simp only [pickAndDecrement, if_neg hcond, hidx, hget]
  · simp only [pickAndDecrement, if_neg hcond, hidx]

/-! ### Claim theorems -/

/-- Claim C1: for every pool with `totalRemaining > 0`, the draw operation,
given the uniformly drawn integer `r ∈ [0, totalRemaining)`, walks the pool
in order accumulating the running sum of per-category counts and selects the
first category whose cumulative sum exceeds `r` (the returned pick is the
block at the least index whose cumulative count sum is `> r`; all earlier
cumulative sums are `≤ r`). -/
theorem draw_selects_first_cumulative (blocks : List Block) (r : Int)
    (h0 : 0 ≤ r) (hr : r < totalCount blocks) :
    ∃ i, i < blocks.length ∧ (pickAndDecrement blocks r).1 = blocks.get? i ∧
      r < totalCount (blocks.take (i + 1)) ∧
      ∀ j < i, totalCount (blocks.take (j + 1)) ≤ r := by
  obtain ⟨i, b, _, _, hget, _, h1, _, hcum, hmin⟩ := pickAndDecrement_pick blocks r h0 hr
  obtain ⟨hlen, -⟩ := List.get?_eq_some.mp hget
  exact ⟨i, hlen, by rw [h1, hget], hcum, hmin⟩

/-- Witness for C1 at `demoPool` with `r = 2`: the cumulative sums are 2 and
5, so the pick is the category at index 1. -/
theorem draw_selects_first_cumulative_witness :
    ∃ i, i < demoPool.length ∧ (pickAndDecrement demoPool 2).1 = demoPool.get? i ∧
      2 < totalCount (demoPool.take (i + 1)) ∧
      ∀ j < i, totalCount (demoPool.take (j + 1)) ≤ 2 :=
  draw_selects_first_cumulative demoPool 2 (by decide) (by decide)

/-- Claim C10: for every pool and every `r ∈ [0, totalRemaining)`, the
cumulative walk terminates at an index whose block has a positive remaining
count before the loop ends (`pickIndexLoop` returns `some`, so the defensive
`pickedIndex === -1` fallback is unreachable), hence a category with
remaining count 0 is never picked. -/
theorem walk_never_picks_empty (blocks : List Block) (r : Int)
    (h0 : 0 ≤ r) (hr : r < totalCount blocks) :
    ∃ i b, pickIndexLoop blocks r 0 = some i ∧ pickedIndex blocks r = i ∧
      blocks.get? i = some b ∧ 0 < b.count ∧
      (pickAndDecrement blocks r).1 = some b := by
  obtain ⟨i, b, hi, hidx, hget, hcount, h1, _, _, _⟩ := pickAndDecrement_pick blocks r h0 hr
  exact ⟨i, b, hi, hidx, hget, hcount, h1⟩

/-- Witness for C10 at a pool whose first category is exhausted: with
`r = 0` the walk lands on the nonempty second category, not the empty
first one. -/
theorem walk_never_picks_empty_witness :
    ∃ i b,
      pickIndexLoop [⟨"red", "Merah", "/red.svg", 0, 6⟩, ⟨"blue", "Biru", "/blue.svg", 3, 6⟩] 0 0
        = some i ∧
      pickedIndex [⟨"red", "Merah", "/red.svg", 0, 6⟩, ⟨"blue", "Biru", "/blue.svg", 3, 6⟩] 0 = i ∧
      [(⟨"red", "Merah", "/red.svg", 0, 6⟩ : Block), ⟨"blue", "Biru", "/blue.svg", 3, 6⟩].get? i
        = some b ∧ 0 < b.count ∧
      (pickAndDecrement [⟨"red", "Merah", "/red.svg", 0, 6⟩, ⟨"blue", "Biru", "/blue.svg", 3, 6⟩]
        0).1 = some b :=
  walk_never_picks_empty _ 0 (by decide) (by decide)

/-- Claim C5: on every successful draw, exactly the picked category's count
decreases by exactly 1 and stays non-negative, while every other entry of
the pool — and the pool's length and order — is unchanged; the picked entry
keeps its `id`, `name`, `src` and `initial` fields. -/
theorem draw_decrements_only_picked (blocks : List Block) (r : Int)
    (h0 : 0 ≤ r) (hr : r < totalCount blocks) :
    ∃ i b, blocks.get? i = some b ∧ (pickAndDecrement blocks r).1 = some b ∧
      0 < b.count ∧
      (pickAndDecrement blocks r).2.length = blocks.length ∧
      (pickAndDecrement blocks r).2.get? i = some { b with count := b.count - 1 } ∧
      0 ≤ b.count - 1 ∧
      ∀ j, j ≠ i → (pickAndDecrement blocks r).2.get? j = blocks.get? j := by
  obtain ⟨i, b, _, _, hget, hcount, h1, h2, _, _⟩ := pickAndDecrement_pick blocks r h0 hr
  refine ⟨i, b, hget, h1, hcount, ?_, ?_, by omega, ?_⟩
  · rw [h2, mapWithIndex_length]
  · rw [h2, mapWithIndex_get? _ blocks 0 i, hget]
    simp only [Option.map_some', Nat.zero_add, eq_self_iff_true, if_true]
    have : max 0 (b.count - 1) = b.count - 1 := max_eq_right (by omega)
    rw [this]
  · intro j hj
    rw [h2, mapWithIndex_get? _ blocks 0 j]
    simp only [Nat.zero_add, if_neg hj]
    cases blocks.get? j <;> rfl

/-- Witness for C5 at `demoPool` with `r = 0`: the red category (index 0)
goes from 2 to 1, blue is untouched. -/
theorem draw_decrements_only_picked_witness :
    ∃ i b, demoPool.get? i = some b ∧ (pickAndDecrement demoPool 0).1 = some b ∧
      0 < b.count ∧
      (pickAndDecrement demoPool 0).2.length = demoPool.length ∧
      (pickAndDecrement demoPool 0).2.get? i = some { b with count := b.count - 1 } ∧
      0 ≤ b.count - 1 ∧
      ∀ j, j ≠ i → (pickAndDecrement demoPool 0).2.get? j = demoPool.get? j :=
  draw_decrements_only_picked demoPool 0 (by decide) (by decide)

/-- Claim C6: whenever `totalRemaining` is 0, a draw request is a no-op:
it returns no pick and leaves the pool unchanged. -/
theorem draw_noop_when_exhausted (blocks : List Block) (r : Int)
    (h : totalCount blocks = 0) :
    pickAndDecrement blocks r = (none, blocks) := by
  simp [pickAndDecrement, h]

/-- Witness for C6 at an exhausted one-category pool. -/
theorem draw_noop_when_exhausted_witness :
    pickAndDecrement [⟨"red", "Merah", "/red.svg", 0, 6⟩] 7
      = (none, [⟨"red", "Merah", "/red.svg", 0, 6⟩]) :=
  draw_noop_when_exhausted _ 7 (by decide)

/-- Counterexample to claim C2 as stated: a persisted override of `0` for
"red" is a coercible non-negative numeric value, so the claim predicts the
override `red: 0`; the code's `Number(found.initial) || d.initial` is falsy
on 0 and falls back to the built-in default 6, so `load()` differs from the
claimed result at this input. -/
theorem load_zero_override_counterexample :
    loadSavedConfig (some [⟨"red", some 0⟩]) ≠ claimedLoad (some [⟨"red", some 0⟩]) := by
  decide

/-- Amended claim C2: `load()` applies a persisted override exactly when its
coercion is a nonzero number (zero and NaN coercions fall back to the
built-in default; nonzero negative values pass through); stale ids are
dropped and built-in order is preserved (`amendedLoad` maps over the
built-in list).  The claim's concrete example still holds: built-in
`{red: 6, blue: 6}` merged with `[{id: "red", initial: 3},
{id: "stale", initial: 99}]` yields `{red: 3, blue: 6}`. -/
theorem load_reconciliation_amended :
    (∀ stored, loadSavedConfig stored = amendedLoad stored) ∧
    mergeConfig [⟨"red", "Merah", "/red.svg", 6⟩, ⟨"blue", "Biru", "/blue.svg", 6⟩]
        [⟨"red", some 3⟩, ⟨"stale", some 99⟩]
      = [⟨"red", "Merah", "/red.svg", 3⟩, ⟨"blue", "Biru", "/blue.svg", 6⟩] := by
  refine ⟨?_, by decide⟩
  intro stored
  cases stored with
  | none => rfl
  | some parsed =>
    simp only [loadSavedConfig, amendedLoad, mergeConfig]
    apply List.map_congr_left
    intro d _
    cases parsed.find? (fun p => p.id = d.id) with
    | none => rfl
    | some found =>
      cases hinit : found.initial with
      | none => simp [jsOr, hinit]
      | some m =>
        by_cases hm : m = 0
        · simp [jsOr, hinit, hm]
        · simp [jsOr, hinit, hm]

/-- Claim C3 (code bug): `saveConfig` contains no `try`/`catch`, so when the
persistence write fails (`localStorage.setItem` throws because storage is
unavailable), the exception propagates to the caller instead of silently
degrading to in-memory-only configuration for the session. -/
theorem saveConfig_raises_on_storage_failure (config : List SaveItem) :
    saveConfig false config = Except.error () := rfl

/-- Claim C7: when exactly one category has a positive remaining count,
`getSingleRemainingBlock` reports it and a draw request skips cycling:
`animateSelection` takes the `immediate` outcome (no animation ticks, no
`setIsAnimating(true)`), selects that unique category, and decrements its
count, leaving the others unchanged. -/
theorem single_category_fast_path (blocks : List Block) (u : Block) (r : Int)
    (hone : blocks.filter (fun b => decide (b.count > 0)) = [u])
    (h0 : 0 ≤ r) (hr : r < totalCount blocks) :
    getSingleRemainingBlock blocks = some u ∧
    ∃ i blocks2, blocks.get? i = some u ∧
      animateSelection blocks r = SelectionOutcome.immediate (some u) blocks2 ∧
      blocks2.length = blocks.length ∧
      blocks2.get? i = some { u with count := u.count - 1 } ∧
      ∀ j, j ≠ i → blocks2.get? j = blocks.get? j := by
  obtain ⟨i, b, _, _, hget, hcount, h1, h2, _, _⟩ := pickAndDecrement_pick blocks r h0 hr
  have hbmem : b ∈ blocks.filter (fun b => decide (b.count > 0)) :=
    List.mem_filter.mpr ⟨List.get?_mem hget, by simpa using hcount⟩
  have hbu : b = u := by rw [hone] at hbmem; simpa using hbmem
  subst hbu
  refine ⟨by simp [getSingleRemainingBlock, hone], i, (pickAndDecrement blocks r).2,
    hget, ?_, ?_, ?_, ?_⟩
  · simp [animateSelection, hone, h1]
  · rw [h2, mapWithIndex_length]
  · rw [h2, mapWithIndex_get? _ blocks 0 i, hget]
    simp only [Option.map_some', Nat.zero_add, eq_self_iff_true, if_true]
    have : max 0 (b.count - 1) = b.count - 1 := max_eq_right (by omega)
    rw [this]
  · intro j hj
    rw [h2, mapWithIndex_get? _ blocks 0 j]
    simp only [Nat.zero_add, if_neg hj]
    cases blocks.get? j <;> rfl

/-- Witness for C7: from `{A: 0, B: 1}`, a draw synchronously returns B and
leaves `{A: 0, B: 0}`. -/
theorem single_category_fast_path_witness :
    getSingleRemainingBlock singlePool = some singleB ∧
    ∃ i blocks2, singlePool.get? i = some singleB ∧
      animateSelection singlePool 0 = SelectionOutcome.immediate (some singleB) blocks2 ∧
      blocks2.length = singlePool.length ∧
      blocks2.get? i = some { singleB with count := singleB.count - 1 } ∧
      ∀ j, j ≠ i → blocks2.get? j = singlePool.get? j :=
  single_category_fast_path singlePool singleB 0 (by decide) (by decide) (by decide)

/-- Claim C8: a user edit of a category's starting count immediately sets
both its `initial` (starting count) and its current `count` (remaining
count) to the new value — refilling it mid-session — and leaves every other
category, and the pool's length, unchanged. -/
theorem edit_sets_count_and_initial (blocks : List Block) (blockId : String) (n : Int) :
    (editBlocks blocks blockId n).length = blocks.length ∧
    ∀ j b, blocks.get? j = some b →
      (b.id = blockId →
        (editBlocks blocks blockId n).get? j = some { b with count := n, initial := n }) ∧
      (b.id ≠ blockId → (editBlocks blocks blockId n).get? j = some b) := by
  refine ⟨by simp [editBlocks], ?_⟩
  intro j b hb
  have hmap : (editBlocks blocks blockId n).get? j
      = (blocks.get? j).map fun p =>
          if p.id = blockId then { p with count := n, initial := n } else p :=
    List.get?_map _ blocks j
  constructor
  · intro hid
    rw [hmap, hb]
    simp [hid]
  · intro hid
    rw [hmap, hb]
    simp [hid]

/-- Witness for C8: editing "red" of `demoPool` to 9 refills red
(`count = initial = 9`) and leaves blue untouched. -/
theorem edit_sets_count_and_initial_witness :
    (editBlocks demoPool "red" 9).get? 0 = some ⟨"red", "Merah", "/red.svg", 9, 9⟩ ∧
    (editBlocks demoPool "red" 9).get? 1 = some ⟨"blue", "Biru", "/blue.svg", 3, 6⟩ := by
  obtain ⟨-, h⟩ := edit_sets_count_and_initial demoPool "red" 9
  exact ⟨(h 0 ⟨"red", "Merah", "/red.svg", 2, 6⟩ rfl).1 rfl,
         (h 1 ⟨"blue", "Biru", "/blue.svg", 3, 6⟩ rfl).2 (by decide)⟩

/-- Claim C9: the invariant `0 ≤ remainingCount ≤ startingCount` holds after
every operation: a draw decrements the picked count floored at 0; a reset,
an edit with a non-negative value, and (re)initialization from a loaded
configuration with non-negative values all set `count := initial`. -/
theorem operations_preserve_invariant (blocks : List Block) (r : Int)
    (savedConfig : List ConfigEntry) (parsed : List ParsedEntry)
    (blockId : String) (n : Int) :
    (CountInv blocks → CountInv (pickAndDecrement blocks r).2) ∧
    ((∀ s ∈ savedConfig, 0 ≤ s.initial) → CountInv (handleReset savedConfig)) ∧
    (0 ≤ n → CountInv blocks → CountInv (editBlocks blocks blockId n)) ∧
    ((∀ p ∈ parsed, 0 ≤ p.initial.getD 0) →
      CountInv (initBlocks (loadSavedConfig (some parsed)))) ∧
    CountInv (initBlocks (loadSavedConfig none)) := by
  have hdraw : CountInv blocks → CountInv (pickAndDecrement blocks r).2 := by
    intro hInv
    by_cases hc : totalCount blocks ≤ 0
    · simpa [pickAndDecrement, hc] using hInv
    · intro b' hb'
      have h2 : (pickAndDecrement blocks r).2 =
          mapWithIndex (fun j c => if j = pickedIndex blocks r then
            { c with count := max 0 (c.count - 1) } else c) 0 blocks := by
        simp [pickAndDecrement, hc]
      rw [h2] at hb'
      obtain ⟨k, b, hbmem, rfl⟩ := mapWithIndex_mem _ blocks 0 b' hb'
      obtain ⟨hb1, hb2⟩ := hInv b hbmem
      by_cases hk : k = pickedIndex blocks r
      · simp only [if_pos hk]
        exact ⟨le_max_left _ _, max_le (by omega) (by omega)⟩
      · simpa [if_neg hk] using ⟨hb1, hb2⟩
  have hreset : (∀ s ∈ savedConfig, 0 ≤ s.initial) → CountInv (handleReset savedConfig) := by
    intro hs b hb
    unfold handleReset at hb
    by_cases hlen : savedConfig.length ≠ 0
    · rw [if_pos hlen, List.mem_map] at hb
      obtain ⟨c, hc, rfl⟩ := hb
      exact ⟨hs c hc, le_refl _⟩
    · rw [if_neg hlen, List.mem_map] at hb
      obtain ⟨c, hc, rfl⟩ := hb
      have hdef : ∀ e ∈ DEFAULT_INITIAL, (0:Int) ≤ e.initial := by decide
      exact ⟨hdef c hc, le_refl _⟩
  have hedit : 0 ≤ n → CountInv blocks → CountInv (editBlocks blocks blockId n) := by
    intro hn hInv b' hb'
    unfold editBlocks at hb'
    rw [List.mem_map] at hb'
    obtain ⟨b, hbmem, rfl⟩ := hb'
    by_cases hid : b.id = blockId
    · simp only [if_pos hid]
      exact ⟨hn, le_refl _⟩
    · simpa [if_neg hid] using hInv b hbmem
  have hload : (∀ p ∈ parsed, 0 ≤ p.initial.getD 0) →
      CountInv (initBlocks (loadSavedConfig (some parsed))) := by
    intro hp b hb
    unfold initBlocks at hb
    rw [List.mem_map] at hb
    obtain ⟨c, hc, rfl⟩ := hb
    refine ⟨?_, le_refl _⟩
    show (0:Int) ≤ c.initial
    unfold loadSavedConfig mergeConfig at hc
    rw [List.mem_map] at hc
    obtain ⟨d, hd, rfl⟩ := hc
    have hd0 : (0:Int) ≤ d.initial := by
      have hdef : ∀ e ∈ DEFAULT_INITIAL, (0:Int) ≤ e.initial := by decide
      exact hdef d hd
    cases hfind : parsed.find? (fun p => p.id = d.id) with
    | none => simpa [hfind] using hd0
    | some found =>
      simp only [hfind]
      cases hinit : found.initial with
      | none => simpa [jsOr, hinit] using hd0
      | some m =>
        have hm : (0:Int) ≤ m := by
          have := hp found (List.mem_of_find?_eq_some hfind)
          simpa [hinit] using this
        by_cases hm0 : m = 0
        · simpa [jsOr, hinit, hm0] using hd0
        · simpa [jsOr, hinit, hm0] using hm
  exact ⟨hdraw, hreset, hedit, hload, by decide⟩

theorem animateTick_before_final (blocks availableBlocks : List Block)
    (duration elapsed : ℚ) (fi : Nat) (r : Int)
    (hd : 0 < duration) (ht : elapsed < duration) :
    (animateTick blocks availableBlocks duration elapsed fi r).blocks = blocks ∧
    (animateTick blocks availableBlocks duration elapsed fi r).finished = false := by
  have hp : min 1 (elapsed / duration) < 1 :=
    min_lt_iff.mpr (Or.inr ((div_lt_one hd).mpr ht))
  constructor <;> simp [animateTick, hp]

theorem animateTick_final (blocks availableBlocks : List Block)
    (duration elapsed : ℚ) (fi : Nat) (r : Int)
    (hd : 0 < duration) (ht : duration ≤ elapsed) :
    (animateTick blocks availableBlocks duration elapsed fi r).blocks
        = (pickAndDecrement blocks r).2 ∧
    (animateTick blocks availableBlocks duration elapsed fi r).finished = true := by
  have hmin : min 1 (elapsed / duration) = 1 := min_eq_left ((one_le_div hd).mpr ht)
  have hp : ¬ min 1 (elapsed / duration) < 1 := by rw [hmin]; exact lt_irrefl 1
  constructor <;> simp [animateTick, hp]

/-- Claim C4: within a reveal cycle on the general cycling path, every tick
sampled before the duration has elapsed leaves the `blocks` state (all
remaining counts) unchanged and does not finish the cycle, and the first
tick at or past the duration performs the single draw-and-decrement as the
last step: the whole cycle ends in state `(pickAndDecrement blocks r).2`
having made exactly one `pickAndDecrement` call. -/
theorem cycle_mutates_once_at_end (availableBlocks : List Block) (duration : ℚ) (r : Int) :
    ∀ (times : List ℚ) (blocks : List Block) (fi : Nat) (tf : ℚ),
      0 < duration → (∀ t ∈ times, t < duration) → duration ≤ tf →
      runCycle availableBlocks duration r blocks fi (times ++ [tf]) =
        ((pickAndDecrement blocks r).2, 1) := by
  intro times
  induction times with
  | nil =>
    intro blocks fi tf hd _ hf
    obtain ⟨hb, hfin⟩ := animateTick_final blocks availableBlocks duration tf fi r hd hf
    simp [runCycle, hfin, hb]
  | cons t ts ih =>
    intro blocks fi tf hd ht hf
    obtain ⟨hb, hfin⟩ :=
      animateTick_before_final blocks availableBlocks duration t fi r hd (ht t (by simp))
    rw [List.cons_append]
    simp only [runCycle, hfin, hb, Bool.false_eq_true, if_false]
    exact ih blocks (fi + 1) tf hd (fun x hx => ht x (by simp [hx])) hf

/-- Witness for C4: a three-tick cycle over `demoPool` with a 2000 ms
duration, sampled at 500, 1300 and 2000 ms. -/
theorem cycle_mutates_once_at_end_witness :
    runCycle demoPool 2000 2 demoPool 0 [500, 1300, 2000] =
      ((pickAndDecrement demoPool 2).2, 1) :=
  cycle_mutates_once_at_end demoPool 2000 2 [500, 1300] demoPool 0 2000
    (by norm_num) (by decide) (by norm_num)

/-- Witness for C9: the invariant holds after a concrete draw, reset, edit
and load. -/
theorem operations_preserve_invariant_witness :
    CountInv (pickAndDecrement demoPool 2).2 ∧
    CountInv (handleReset DEFAULT_INITIAL) ∧
    CountInv (editBlocks demoPool "red" 9) ∧
    CountInv (initBlocks (loadSavedConfig (some [⟨"red", some 3⟩]))) := by
  obtain ⟨h1, h2, h3, h4, -⟩ :=
    operations_preserve_invariant demoPool 2 DEFAULT_INITIAL [⟨"red", some 3⟩] "red" 9
  exact ⟨h1 (by decide), h2 (by decide), h3 (by decide) (by decide), h4 (by decide)⟩
